import Mathlib

/-!
Shallow embedding of the LudoLocale backend (ludolocale_backend.py): the
per-format extract routines (Unity YAML fallback, Unreal locres, RPG Maker
rvdata2, Godot pck), the heuristic binary string scanner, the patch routines
and the dispatch of `/parse` and `/patch`.  Python `bytes` values are
`List Nat` (each entry a byte value), Python `str` values are `List Char`.
Python-library behaviour used by the source (slicing that truncates at the
buffer end, `struct.unpack_from` that raises when fewer than the needed bytes
remain, UTF-8 / UTF-16-LE decoding, `str.strip`, `str.lower`, decimal
formatting of integers) is modelled by the helper functions below.
-/

namespace LudoLocale

/-- Equality on `Except` results is decidable when it is on both sides
(needed to settle concrete dispatch outcomes by `decide`). -/
instance {ε α : Type} [DecidableEq ε] [DecidableEq α] : DecidableEq (Except ε α) := fun x y =>
  match x, y with
  | .ok a, .ok b =>
    if h : a = b then isTrue (by rw [h]) else isFalse (by simp [h])
  | .error a, .error b =>
    if h : a = b then isTrue (by rw [h]) else isFalse (by simp [h])
  | .ok _, .error _ => isFalse (by simp)
  | .error _, .ok _ => isFalse (by simp)

/-- Python slice `bs[a:b]` for `0 ≤ a ≤ b`: truncates at the end of the
buffer instead of failing. -/
def pySlice (bs : List Nat) (a b : Nat) : List Nat :=
  (bs.drop a).take (b - a)

/-- Little-endian value of a byte list, as produced by
`int.from_bytes(bs, 'little')`. -/
def fromBytesLE (bs : List Nat) : Nat :=
  bs.foldr (fun b acc => b + 256 * acc) 0

/-- The 4 little-endian bytes of a value below 2^32 (used to build concrete
test buffers). -/
def le32 (n : Nat) : List Nat :=
  [n % 256, n / 256 % 256, n / 65536 % 256, n / 16777216 % 256]

/-- The 8 little-endian bytes of a value below 2^64. -/
def le64 (n : Nat) : List Nat :=
  le32 (n % 4294967296) ++ le32 (n / 4294967296)

/-- Model of `struct.unpack_from('<I', content, pos)`: raises (here: `none`)
when fewer than 4 bytes remain from `pos`. -/
def unpackU32 (content : List Nat) (pos : Nat) : Option Nat :=
  if pos + 4 ≤ content.length then some (fromBytesLE (pySlice content pos (pos + 4)))
  else none

/-- Model of the source's `read_uint32`: the value together with the advanced
position. -/
def readU32P (content : List Nat) (pos : Nat) : Option (Nat × Nat) :=
  (unpackU32 content pos).map (fun v => (v, pos + 4))

/-- Model of `struct.unpack_from('<Q', content, pos)` with the advanced
position. -/
def readU64P (content : List Nat) (pos : Nat) : Option (Nat × Nat) :=
  if pos + 8 ≤ content.length then
    some (fromBytesLE (pySlice content pos (pos + 8)), pos + 8)
  else none

/-- Model of the source's `read_int32` (`struct.unpack_from('<i', ...)`):
a signed little-endian 32-bit value with the advanced position. -/
def readInt32 (content : List Nat) (pos : Nat) : Option (Int × Nat) :=
  (unpackU32 content pos).map (fun v =>
    (if v < 2147483648 then (v : Int) else (v : Int) - 4294967296, pos + 4))

/-- Auxiliary recursion for `pyFind`. -/
def pyFindAux : List Nat → List Nat → Nat → Int
  | [], pat, i => if pat.isPrefixOf ([] : List Nat) then (i : Int) else -1
  | b :: rest, pat, i =>
    if pat.isPrefixOf (b :: rest) then (i : Int) else pyFindAux rest pat (i + 1)

/-- Model of `bytes.find(pattern)`: index of the first occurrence, `-1` when
absent. -/
def pyFind (data pat : List Nat) : Int := pyFindAux data pat 0

/-- Decimal digit character. -/
def digitChar (d : Nat) : Char := Char.ofNat (48 + d)

/-- Little-endian decimal digits with explicit fuel (the fuel is always
instantiated with a value at least the argument, which suffices). -/
def decDigitsLE : Nat → Nat → List Char
  | 0, _ => []
  | fuel + 1, n => if n = 0 then [] else digitChar (n % 10) :: decDigitsLE fuel (n / 10)

/-- Decimal rendering of a natural number, as Python `str(n)` / f-string
interpolation produces for the non-negative integers the source formats. -/
def decRepr (n : Nat) : List Char :=
  if n = 0 then [Char.ofNat 48] else (decDigitsLE n (n / 10)).reverse ++ [digitChar (n % 10)]

/-- Value of a little-endian decimal digit list (used to prove `decRepr`
injective). -/
def valueOfLE : List Char → Nat
  | [] => 0
  | c :: cs => (c.toNat - 48) + 10 * valueOfLE cs

/-- Python `str.isspace` characters (the full set Python strips with
`str.strip()`). -/
def pyIsSpace (c : Char) : Bool :=
  ([9, 10, 11, 12, 13, 28, 29, 30, 31, 32, 133, 160, 5760,
    8192, 8193, 8194, 8195, 8196, 8197, 8198, 8199, 8200, 8201, 8202,
    8232, 8233, 8239, 8287, 12288] : List Nat).contains c.toNat

/-- Drop leading characters satisfying `p` (Python `lstrip`). -/
def lstripBy (p : Char → Bool) (l : List Char) : List Char := l.dropWhile p

/-- Drop trailing characters satisfying `p` (Python `rstrip`). -/
def rstripBy (p : Char → Bool) (l : List Char) : List Char :=
  (l.reverse.dropWhile p).reverse

/-- Python `str.strip()` with no argument: strip whitespace from both ends. -/
def pyStrip (l : List Char) : List Char := rstripBy pyIsSpace (lstripBy pyIsSpace l)

/-- Python `str.strip(cs)`: strip any of the given characters from both
ends. -/
def stripSet (cs : List Char) (l : List Char) : List Char :=
  rstripBy (fun c => cs.contains c) (lstripBy (fun c => cs.contains c) l)

/-- Python `str.rstrip('\x00')`. -/
def rstrip0 (l : List Char) : List Char := rstripBy (fun c => c.toNat == 0) l

/-- Python `str.startswith(p)`. -/
def startsWithL (s p : List Char) : Bool := p.isPrefixOf s

/-- Python `str.endswith(p)`. -/
def endsWithL (s p : List Char) : Bool := p.isSuffixOf s

/-- Python `str.endswith(tuple)`. -/
def endsWithAny (s : List Char) (ps : List (List Char)) : Bool :=
  ps.any (fun p => endsWithL s p)

/-- Python `str.lower()` restricted to ASCII letters (the only case folding
the source's filename comparisons rely on). -/
def pyLowerChar (c : Char) : Char :=
  if 65 ≤ c.toNat ∧ c.toNat ≤ 90 then Char.ofNat (c.toNat + 32) else c

/-- Python `str.lower()`. -/
def pyLower (s : List Char) : List Char := s.map pyLowerChar

/-- Python `str.split(sep)` for a single-character separator. -/
def splitOnChar (sep : Char) : List Char → List (List Char)
  | [] => [[]]
  | c :: rest =>
    let r := splitOnChar sep rest
    if c = sep then [] :: r
    else match r with
      | [] => [[c]]
      | hd :: tl => (c :: hd) :: tl

/-- Python `str.isprintable` on one character: exact on ASCII and Latin-1
(controls, DEL, C1 controls, NBSP and soft hyphen are not printable); code
points above U+00FF are treated as printable, which is exact for all inputs
the development evaluates. -/
def pyPrintableChar (c : Char) : Bool :=
  (32 ≤ c.toNat ∧ c.toNat ≤ 126) ∨ (161 ≤ c.toNat ∧ c.toNat ≠ 173)

/-- Python `str.isprintable` (true on the empty string). -/
def pyIsPrintableStr (s : List Char) : Bool := s.all pyPrintableChar

/-- Continuation byte test for UTF-8. -/
def utf8Cont (b : Nat) : Bool := 128 ≤ b ∧ b < 192

/-- Range constraint on the second byte of a 3-byte UTF-8 sequence with lead
byte `b` (excludes overlong forms and surrogates, as CPython does). -/
def utf8Cont2of3 (b c : Nat) : Bool :=
  if b = 224 then 160 ≤ c ∧ c < 192
  else if b = 237 then 128 ≤ c ∧ c < 160
  else utf8Cont c

/-- Range constraint on the second byte of a 4-byte UTF-8 sequence with lead
byte `b` (excludes overlong forms and values above U+10FFFF). -/
def utf8Cont2of4 (b c : Nat) : Bool :=
  if b = 240 then 144 ≤ c ∧ c < 192
  else if b = 244 then 128 ≤ c ∧ c < 144
  else utf8Cont c

/-- Strict UTF-8 decoding, as `bytes.decode('utf-8', errors='strict')`:
`none` exactly when CPython raises `UnicodeDecodeError`. -/
def utf8DecodeStrict : List Nat → Option (List Char)
  | [] => some []
  | b :: rest =>
    if b < 128 then (utf8DecodeStrict rest).map (fun cs => Char.ofNat b :: cs)
    else if b < 194 then none
    else if b < 224 then
      match rest with
      | c1 :: rest1 =>
        if utf8Cont c1 then
          (utf8DecodeStrict rest1).map (fun cs => Char.ofNat ((b - 192) * 64 + (c1 - 128)) :: cs)
        else none
      | [] => none
    else if b < 240 then
      match rest with
      | c1 :: c2 :: rest2 =>
        if utf8Cont2of3 b c1 ∧ utf8Cont c2 then
          (utf8DecodeStrict rest2).map (fun cs =>
            Char.ofNat ((b - 224) * 4096 + (c1 - 128) * 64 + (c2 - 128)) :: cs)
        else none
      | _ => none
    else if b < 245 then
      match rest with
      | c1 :: c2 :: c3 :: rest3 =>
        if utf8Cont2of4 b c1 ∧ utf8Cont c2 ∧ utf8Cont c3 then
          (utf8DecodeStrict rest3).map (fun cs =>
            Char.ofNat ((b - 240) * 262144 + (c1 - 128) * 4096 + (c2 - 128) * 64 + (c3 - 128)) :: cs)
        else none
      | _ => none
    else none

/-- The Unicode replacement character U+FFFD. -/
def replChar : Char := Char.ofNat 65533

/-- UTF-8 decoding with `errors='replace'` (fuel-indexed: every step consumes
at least one byte, so fuel equal to the byte count always suffices), as
CPython: each maximal subpart of an ill-formed sequence becomes one
U+FFFD. -/
def utf8DecodeReplaceF : Nat → List Nat → List Char
  | 0, _ => []
  | _, [] => []
  | fuel + 1, b :: rest =>
    if b < 128 then Char.ofNat b :: utf8DecodeReplaceF fuel rest
    else if b < 194 then replChar :: utf8DecodeReplaceF fuel rest
    else if b < 224 then
      match rest with
      | c1 :: rest1 =>
        if utf8Cont c1 then
          Char.ofNat ((b - 192) * 64 + (c1 - 128)) :: utf8DecodeReplaceF fuel rest1
        else replChar :: utf8DecodeReplaceF fuel rest
      | [] => [replChar]
    else if b < 240 then
      match rest with
      | c1 :: rest1 =>
        if utf8Cont2of3 b c1 then
          match rest1 with
          | c2 :: rest2 =>
            if utf8Cont c2 then
              Char.ofNat ((b - 224) * 4096 + (c1 - 128) * 64 + (c2 - 128))
                :: utf8DecodeReplaceF fuel rest2
            else replChar :: utf8DecodeReplaceF fuel rest1
          | [] => [replChar]
        else replChar :: utf8DecodeReplaceF fuel rest
      | [] => [replChar]
    else if b < 245 then
      match rest with
      | c1 :: rest1 =>
        if utf8Cont2of4 b c1 then
          match rest1 with
          | c2 :: rest2 =>
            if utf8Cont c2 then
              match rest2 with
              | c3 :: rest3 =>
                if utf8Cont c3 then
                  Char.ofNat ((b - 240) * 262144 + (c1 - 128) * 4096 + (c2 - 128) * 64 + (c3 - 128))
                    :: utf8DecodeReplaceF fuel rest3
                else replChar :: utf8DecodeReplaceF fuel rest2
              | [] => [replChar]
            else replChar :: utf8DecodeReplaceF fuel rest1
          | [] => [replChar]
        else replChar :: utf8DecodeReplaceF fuel rest
      | [] => [replChar]
    else replChar :: utf8DecodeReplaceF fuel rest

/-- UTF-8 decoding with `errors='replace'`, as
`bytes.decode('utf-8', errors='replace')`. -/
def utf8DecodeReplace (bs : List Nat) : List Char := utf8DecodeReplaceF bs.length bs

/-- UTF-16-LE decoding with `errors='replace'` (fuel-indexed like
`utf8DecodeReplaceF`): code units are byte pairs, surrogate pairs combine,
unpaired surrogates and an odd trailing byte each become one U+FFFD. -/
def utf16leDecodeReplaceF : Nat → List Nat → List Char
  | 0, _ => []
  | _, [] => []
  | _ + 1, [_] => [replChar]
  | fuel + 1, b0 :: b1 :: rest =>
    let u := b0 + 256 * b1
    if u < 55296 ∨ 57344 ≤ u then Char.ofNat u :: utf16leDecodeReplaceF fuel rest
    else if u < 56320 then
      match rest with
      | c0 :: c1 :: rest2 =>
        let v := c0 + 256 * c1
        if 56320 ≤ v ∧ v < 57344 then
          Char.ofNat (65536 + (u - 55296) * 1024 + (v - 56320)) :: utf16leDecodeReplaceF fuel rest2
        else replChar :: utf16leDecodeReplaceF fuel rest
      | _ => replChar :: utf16leDecodeReplaceF fuel rest
    else replChar :: utf16leDecodeReplaceF fuel rest

/-- UTF-16-LE decoding with `errors='replace'`, as
`bytes.decode('utf-16-le', errors='replace')`. -/
def utf16leDecodeReplace (bs : List Nat) : List Char :=
  utf16leDecodeReplaceF bs.length bs

/-- UTF-8 encoding of one character (`str.encode('utf-8')`). -/
def utf8EncodeChar (c : Char) : List Nat :=
  let n := c.toNat
  if n < 128 then [n]
  else if n < 2048 then [192 + n / 64, 128 + n % 64]
  else if n < 65536 then [224 + n / 4096, 128 + n / 64 % 64, 128 + n % 64]
  else [240 + n / 262144, 128 + n / 4096 % 64, 128 + n / 64 % 64, 128 + n % 64]

/-- UTF-8 encoding of a string (`str.encode('utf-8')`). -/
def utf8Encode (s : List Char) : List Nat :=
  s.foldr (fun c acc => utf8EncodeChar c ++ acc) []

/-- Byte content of an ASCII/Unicode string literal (used for concrete test
buffers). -/
def strBytes (s : String) : List Nat := utf8Encode s.toList

/-- One extracted string, as the dictionaries
`{"key": ..., "original": ..., "file": ...}` the source appends to its
result lists. -/
structure StringRecord where
  key : List Char
  original : List Char
  file : List Char
deriving DecidableEq

/-- Key `f"bin_{idx}"` of the heuristic scanner. -/
def binKey (i : Nat) : List Char := "bin_".toList ++ decRepr i

/-- Key `f"str_{i}"` of the rvdata2 scan. -/
def strKey (i : Nat) : List Char := "str_".toList ++ decRepr i

/-- Key `f"line_{i}"` of the Unity YAML fallback. -/
def lineKey (i : Nat) : List Char := "line_".toList ++ decRepr i

/-- Key `f"pck_{path}_{i}"` of the Godot pck walk. -/
def pckKey (path : List Char) (i : Nat) : List Char :=
  "pck_".toList ++ path ++ "_".toList ++ decRepr i

/-- The keys `tag ++ decRepr i, tag ++ decRepr (i+1), ...` (`n` of them):
the shape of every sequential-counter key list the source produces. -/
def seqKeys (tag : List Char) : Nat → Nat → List (List Char)
  | _, 0 => []
  | i, n + 1 => (tag ++ decRepr i) :: seqKeys tag (i + 1) n

/-- Byte class accumulated by `extract_strings_from_binary`: printable ASCII
or tab/newline/carriage-return. -/
def printableByte (b : Nat) : Bool :=
  (32 ≤ b ∧ b < 127) ∨ b = 9 ∨ b = 10 ∨ b = 13

/-- Filter applied to a trimmed run by `extract_strings_from_binary`:
nonempty and not starting with a comment marker. -/
def goodTrim (s : List Char) : Bool :=
  s ≠ [] ∧ ¬ startsWithL s "//".toList ∧ ¬ startsWithL s "#!".toList

/-- Main loop of `extract_strings_from_binary`: `cur` is the `current` run
accumulator, `idx` the emitted-record counter.  A run still open when the
bytes end is discarded, exactly as the source's loop ends without a final
flush. -/
def scanAux (fname : List Char) : List Nat → List Char → Nat → List StringRecord
  | [], _, _ => []
  | b :: rest, cur, idx =>
    if printableByte b then scanAux fname rest (cur ++ [Char.ofNat b]) idx
    else if 8 ≤ cur.length then
      if goodTrim (pyStrip cur) then
        ⟨binKey idx, pyStrip cur, fname⟩ :: scanAux fname rest [] (idx + 1)
      else scanAux fname rest [] idx
    else scanAux fname rest [] idx

/-- The source's `extract_strings_from_binary`: heuristic recovery of
printable runs, capped at 500 records. -/
def extract_strings_from_binary (content : List Nat) (fname : List Char) : List StringRecord :=
  (scanAux fname content [] 0).take 500

/-- Specification-side view of the scanner: the printable runs of the input
that are terminated by a later non-printable byte (`cur` is the open run).
The run still open at the end of the input is not included. -/
def terminatedRuns : List Nat → List Char → List (List Char)
  | [], _ => []
  | b :: rest, cur =>
    if printableByte b then terminatedRuns rest (cur ++ [Char.ofNat b])
    else cur :: terminatedRuns rest []

/-- Specification-side view of the scanner's selection: terminated runs of
length at least 8, trimmed, that are nonempty and carry no comment marker. -/
def goodRunsFrom (bs : List Nat) (cur : List Char) : List (List Char) :=
  (((terminatedRuns bs cur).filter (fun r => 8 ≤ r.length)).map pyStrip).filter goodTrim

/-- Specification-side view of the scanner's selection on a whole buffer. -/
def specGoodRuns (content : List Nat) : List (List Char) :=
  goodRunsFrom content []

/-- Attach sequential `bin_i` keys to a list of runs, starting at `i`. -/
def withKeys (fname : List Char) : Nat → List (List Char) → List StringRecord
  | _, [] => []
  | i, s :: rest => ⟨binKey i, s, fname⟩ :: withKeys fname (i + 1) rest

/-- The source's `parse_unity_yaml_fallback` line loop: `i` is the
`enumerate` index.  A line containing a colon is split at the first colon;
the left part (stripped, then lstripped of `-` and space) is the key, the
right part (stripped, then stripped of quotes) the value; values longer than
3 characters not opening a brace or bracket become records.  An empty key
falls back to `line_i`. -/
def yamlLines (fname : List Char) : Nat → List (List Char) → List StringRecord
  | _, [] => []
  | i, line :: rest =>
    if line.contains (Char.ofNat 58) then
      let before := line.takeWhile (fun c => c ≠ Char.ofNat 58)
      let after := (line.dropWhile (fun c => c ≠ Char.ofNat 58)).drop 1
      let key := lstripBy (fun c => c = Char.ofNat 45 ∨ c = Char.ofNat 32) (pyStrip before)
      let val := stripSet [Char.ofNat 34, Char.ofNat 39] (pyStrip after)
      if 3 < val.length ∧ ¬ startsWithL val [Char.ofNat 123] ∧ ¬ startsWithL val [Char.ofNat 91] then
        ⟨if key = [] then lineKey i else key, val, fname⟩ :: yamlLines fname (i + 1) rest
      else yamlLines fname (i + 1) rest
    else yamlLines fname (i + 1) rest

/-- The source's `parse_unity_yaml_fallback`: decode the buffer as UTF-8 with
replacement, split into lines, and mine `key: value` pairs. -/
def parse_unity_yaml_fallback (content : List Nat) (fname : List Char) : List StringRecord :=
  yamlLines fname 0 (splitOnChar (Char.ofNat 10) (utf8DecodeReplace content))

/-- The source's `parse_unity`, modelled on its `ImportError` path: the
UnityPy object-graph library is an external dependency, and without it the
source falls back to the textual YAML heuristic. -/
def parse_unity (content : List Nat) (fname : List Char) : List StringRecord :=
  parse_unity_yaml_fallback content fname

/-- The source's `read_fstring`: a signed 32-bit length prefix; zero means
the empty string with no further bytes consumed; negative means `-length`
UTF-16-LE code units (two bytes each); positive means that many UTF-8 bytes;
both decodings strip trailing NUL characters.  `none` exactly when the
4-byte prefix read raises (the payload slices truncate instead of
raising). -/
def readFstring (content : List Nat) (pos : Nat) : Option (List Char × Nat) :=
  match readInt32 content pos with
  | none => none
  | some (len, p) =>
    if len = 0 then some ([], p)
    else if len < 0 then
      let n := (-len).toNat
      some (rstrip0 (utf16leDecodeReplace (pySlice content p (p + 2 * n))), p + 2 * n)
    else
      let n := len.toNat
      some (rstrip0 (utf8DecodeReplace (pySlice content p (p + n))), p + n)

/-- The inner `for __ in range(key_count)` loop of `parse_locres`: reads
`(key, hash, value)` triples, keeping records with nonempty values keyed
`namespace.key`. -/
def locresEntries (content : List Nat) (ns fname : List Char) :
    Nat → Nat → Option (List StringRecord × Nat)
  | 0, pos => some ([], pos)
  | k + 1, pos => do
    let (key, p1) ← readFstring content pos
    let (_hash, p2) ← readU32P content p1
    let (value, p3) ← readFstring content p2
    let (rest, p4) ← locresEntries content ns fname k p3
    if value ≠ [] then
      some (⟨ns ++ Char.ofNat 46 :: key, value, fname⟩ :: rest, p4)
    else some (rest, p4)

/-- The outer `for _ in range(ns_count)` loop of `parse_locres`. -/
def locresNamespaces (content : List Nat) (fname : List Char) :
    Nat → Nat → Option (List StringRecord × Nat)
  | 0, pos => some ([], pos)
  | n + 1, pos => do
    let (ns, p1) ← readFstring content pos
    let (keyCount, p2) ← readU32P content p1
    let (recs, p3) ← locresEntries content ns fname keyCount p2
    let (rest, p4) ← locresNamespaces content fname n p3
    some (recs ++ rest, p4)

/-- The structured walk of `parse_locres`: skip the 16-byte magic, read
version and namespace count, then the namespace table.  `none` exactly when
an exception would escape the source's `try` block. -/
def locresStruct (content : List Nat) (fname : List Char) : Option (List StringRecord) := do
  let (_version, p1) ← readU32P content 16
  let (nsCount, p2) ← readU32P content p1
  let (recs, _) ← locresNamespaces content fname nsCount p2
  some recs

/-- The source's `parse_locres`: the structured walk, or on any raised
structural error the heuristic scanner's output for the whole buffer. -/
def parse_locres (content : List Nat) (fname : List Char) : List StringRecord :=
  match locresStruct content fname with
  | some recs => recs
  | none => extract_strings_from_binary content fname

/-- The source's `patch_locres`: copies the input into a byte array, and for
each translation computes the key's last dot-component and the index of its
NUL-terminated UTF-8 bytes in the buffer — but the loop body only holds a
`pass` ("sostituzione avanzata richiede riscrittura completa del file"), so
the data is written back unchanged. -/
def patch_locres (content : List Nat) (translations : List (List Char × List Char)) :
    List Nat :=
  translations.foldl (fun data kv =>
    let k := if kv.1.contains (Char.ofNat 46) then
        (kv.1.reverse.takeWhile (fun c => c ≠ Char.ofNat 46)).reverse
      else kv.1
    let search := utf8Encode k ++ [0]
    let _idx := pyFind data search
    data) content

/-- Length-header read of the rvdata2 scan, with `pos` at the `0x22` tag
byte: a length byte below 0x80 is the length itself; a byte with the high
bit set says its low 7 bits count the following little-endian length bytes.
Returns the length and the position of the string body. -/
def rvHeader (content : List Nat) (pos : Nat) : Nat × Nat :=
  if content.getD (pos + 1) 0 &&& 128 ≠ 0 then
    (fromBytesLE (pySlice content (pos + 2) (pos + 2 + (content.getD (pos + 1) 0 &&& 127))),
      pos + 2 + (content.getD (pos + 1) 0 &&& 127))
  else (content.getD (pos + 1) 0, pos + 2)

/-- The `while pos < len(content) - 4` loop of `parse_rvdata2`, fuel-indexed
(the position strictly increases each step, so fuel equal to the byte count
always suffices).  At a `0x22` tag the length header is read and the body
slice strictly UTF-8 decoded: on success the position jumps past the body
and printable strings of more than 2 characters are collected under
sequential `str_i` keys; on a decode error exactly one byte past the header
is skipped; any other byte is skipped. -/
def rvScanF (content : List Nat) (fname : List Char) : Nat → Nat → Nat → List StringRecord
  | 0, _, _ => []
  | fuel + 1, pos, i =>
    if pos < content.length - 4 then
      if content.getD pos 0 = 34 then
        match utf8DecodeStrict (pySlice content (rvHeader content pos).2
            ((rvHeader content pos).2 + (rvHeader content pos).1)) with
        | some s =>
          if 2 < s.length ∧ pyIsPrintableStr s then
            ⟨strKey i, s, fname⟩ ::
              rvScanF content fname fuel ((rvHeader content pos).2 + (rvHeader content pos).1) (i + 1)
          else rvScanF content fname fuel ((rvHeader content pos).2 + (rvHeader content pos).1) i
        | none => rvScanF content fname fuel ((rvHeader content pos).2 + 1) i
      else rvScanF content fname fuel (pos + 1) i
    else []

/-- The source's `parse_rvdata2`: a forward scan from position 2 (past the
Ruby Marshal magic) recognising `0x22`-tagged length-prefixed strings.  The
source's surrounding `try` can never be entered exceptionally (all indexing
is guarded and slices truncate), so the scan itself is the whole
behaviour. -/
def parse_rvdata2 (content : List Nat) (fname : List Char) : List StringRecord :=
  rvScanF content fname content.length 2 0

/-- The source's `patch_rvdata2`: parses each `str_`-prefixed key's index
and encodes the translation, but performs no substitution ("ricerca e
sostituzione nel byte array" is only a comment), writing the input back
unchanged. -/
def patch_rvdata2 (content : List Nat) (translations : List (List Char × List Char)) :
    List Nat :=
  translations.foldl (fun data kv =>
    let _enc := if startsWithL kv.1 "str_".toList then utf8Encode kv.2 else []
    data) content

/-- The source's `patch_unity`, modelled on its `ImportError` path (like
`parse_unity`): without UnityPy the original bytes are written unchanged. -/
def patch_unity (content : List Nat) (_translations : List (List Char × List Char)) :
    List Nat :=
  content

/-- The `msgid` line loop of `parse_godot_pck` over one inner file's decoded
text: `i` is the `enumerate` line index (counting every line); lines of more
than 9 characters starting `msgid "` yield records whose value drops the
7-character opening and the final quote, keyed `pck_{path}_{i}` with the
inner path as source file. -/
def msgidRecords (path : List Char) : Nat → List (List Char) → List StringRecord
  | _, [] => []
  | i, line :: rest =>
    if startsWithL line "msgid \"".toList ∧ 9 < line.length then
      ⟨pckKey path i, (line.drop 7).dropLast, path⟩ :: msgidRecords path (i + 1) rest
    else msgidRecords path (i + 1) rest

/-- The `for _ in range(file_count)` loop of `parse_godot_pck`: reads each
directory entry `(pathLength, path, offset, size, md5)`; for inner paths
with a text-bearing extension the slice `[offset, offset+size)` is decoded
as UTF-8 (with replacement) and mined for `msgid` lines.  `none` exactly
when a directory read raises. -/
def pckEntries (content : List Nat) : Nat → Nat → Option (List StringRecord)
  | 0, _ => some []
  | n + 1, pos => do
    let (plen, p1) ← readU32P content pos
    let path := rstrip0 (utf8DecodeReplace (pySlice content p1 (p1 + plen)))
    let p2 := p1 + plen
    let (offset, p3) ← readU64P content p2
    let (size, p4) ← readU64P content p3
    let p5 := p4 + 16
    let rest ← pckEntries content n p5
    if endsWithAny path [".po".toList, ".csv".toList, ".json".toList, ".tres".toList] then
      let text := utf8DecodeReplace (pySlice content offset (offset + size))
      some (msgidRecords path 0 (splitOnChar (Char.ofNat 10) text) ++ rest)
    else some rest

/-- The source's `parse_godot_pck`: a non-`GDPC` magic returns the heuristic
scanner's output directly; otherwise the header (version and three
semantic-version words, 64 reserved bytes, file count) and the directory are
walked, any raised read error again falling back to the scanner for the
whole buffer. -/
def parse_godot_pck (content : List Nat) (fname : List Char) : List StringRecord :=
  if pySlice content 0 4 = [71, 68, 80, 67] then
    match (do
      let (_version, p1) ← readU32P content 4
      let (_major, p2) ← readU32P content p1
      let (_minor, p3) ← readU32P content p2
      let (_patch, p4) ← readU32P content p3
      let p5 := p4 + 64
      let (fileCount, p6) ← readU32P content p5
      pckEntries content fileCount p6 : Option (List StringRecord)) with
    | some recs => recs
    | none => extract_strings_from_binary content fname
  else extract_strings_from_binary content fname

/-- Failure of the `/parse` dispatch: no engine hint and no filename
extension matched a codec ("Formato non supportato"); the transport layer
surfaces it as an HTTP error. -/
inductive ParseError where
  | unsupportedFormat (filename : List Char)
deriving DecidableEq

/-- The source's `parse_file` dispatch: the lowered filename and the engine
hint select a codec — Unity by hint or `.assets`/`.asset`/`.bundle`, Unreal
by hint or `.locres`, RPG Maker by hint or `.rvdata2`, Godot only by hint
together with `.pck` — and no match raises the unsupported-format error
without consulting any codec or the heuristic scanner. -/
def parse_file (engine filename : List Char) (content : List Nat) :
    Except ParseError (List StringRecord) :=
  if engine = "unity".toList ∨ endsWithAny (pyLower filename)
      [".assets".toList, ".asset".toList, ".bundle".toList] then
    .ok (parse_unity content (pyLower filename))
  else if engine = "unreal".toList ∨ endsWithL (pyLower filename) ".locres".toList then
    .ok (parse_locres content (pyLower filename))
  else if engine = "rpgmaker_xp".toList ∨ endsWithL (pyLower filename) ".rvdata2".toList then
    .ok (parse_rvdata2 content (pyLower filename))
  else if engine = "godot".toList ∧ endsWithL (pyLower filename) ".pck".toList then
    .ok (parse_godot_pck content (pyLower filename))
  else .error (ParseError.unsupportedFormat (pyLower filename))

/-- Failure of the `/patch` dispatch: no patch branch exists for the engine
("Patch non supportata per engine"). -/
inductive PatchError where
  | unsupportedEngine (engine : List Char)
deriving DecidableEq

/-- The source's `generate_patch` dispatch: only `unity`, `unreal` and
`rpgmaker_xp` have patch branches; any other engine — including `godot` —
raises the unsupported-engine error. -/
def generate_patch (engine : List Char) (content : List Nat)
    (translations : List (List Char × List Char)) : Except PatchError (List Nat) :=
  if engine = "unity".toList then .ok (patch_unity content translations)
  else if engine = "unreal".toList then .ok (patch_locres content translations)
  else if engine = "rpgmaker_xp".toList then .ok (patch_rvdata2 content translations)
  else .error (PatchError.unsupportedEngine engine)

/-- Concrete locres buffer (one namespace, one record): 16-byte magic,
version 1, one namespace with empty name, one key `k` with hash 0 and value
`Hello` (UTF-8, declared length 5 at offset 41, payload at 45). -/
def locresOneRec : List Nat :=
  List.replicate 16 0 ++ le32 1 ++ le32 1 ++ le32 0 ++ le32 1 ++
    le32 1 ++ strBytes "k" ++ le32 0 ++ le32 5 ++ strBytes "Hello"

/-- Concrete truncated locres buffer: as `locresOneRec` but the final value
declares length 100 while only the 10 bytes `HelloWorld` remain, so the
declared prefix reads past the buffer end. -/
def locresOverrun : List Nat :=
  List.replicate 16 0 ++ le32 1 ++ le32 1 ++ le32 0 ++ le32 1 ++
    le32 1 ++ strBytes "k" ++ le32 0 ++ le32 100 ++ strBytes "HelloWorld"

/-- Concrete rvdata2 buffer: magic, a `0x22` tag with direct length 5 and
body `Hello`, then non-tag padding. -/
def rvdataHello : List Nat :=
  [4, 8] ++ [34, 5] ++ strBytes "Hello" ++ [0, 0, 0, 0, 0]

/-- Concrete rvdata2 buffer with a length overrun: the tag at position 2
declares direct length 10 while only the 3 bytes `Hi!` remain. -/
def rvdataOverrun : List Nat := [4, 8, 34, 10] ++ strBytes "Hi!"

/-- Concrete GDPC archive: magic, version words 1/3/5/0, 64 reserved bytes,
one directory entry for inner path `strings.po` whose 13-byte payload
`msgid "Hello"` sits at offset 134. -/
def gdpcHello : List Nat :=
  strBytes "GDPC" ++ le32 1 ++ le32 3 ++ le32 5 ++ le32 0 ++
    List.replicate 64 0 ++ le32 1 ++
    le32 10 ++ strBytes "strings.po" ++ le64 134 ++ le64 13 ++
    List.replicate 16 0 ++ strBytes "msgid \"Hello\""

/-- Concrete YAML-ish input with two lines sharing the key `a`. -/
def yamlDupInput : List Nat := strBytes "a: hello\na: world"

/-- Concrete scanner input: a terminated printable run of 8 spaces. -/
def spacesRun : List Nat := List.replicate 8 32 ++ [0]

/-! Auxiliary lemmas: the decimal rendering is injective, sequential key
lists are duplicate-free, and the scanner loop is the keyed pipeline over
terminated runs. -/

theorem digitChar_toNat : ∀ d, d < 10 → (digitChar d).toNat = 48 + d := by decide

theorem decDigitsLE_val : ∀ fuel n, n ≤ fuel → valueOfLE (decDigitsLE fuel n) = n := by
  intro fuel
  induction fuel with
  | zero =>
    intro n hn
    have : n = 0 := by omega
    subst this
    rfl
  | succ f ih =>
    intro n hn
    by_cases h0 : n = 0
    · subst h0; rfl
    · simp only [decDigitsLE, if_neg h0, valueOfLE]
      rw [digitChar_toNat (n % 10) (by omega), ih (n / 10) (by omega)]
      omega

theorem decRepr_val (n : Nat) : valueOfLE (decRepr n).reverse = n := by
  by_cases h0 : n = 0
  · subst h0; rfl
  · simp only [decRepr, if_neg h0, List.reverse_append, List.reverse_cons, List.reverse_nil,
      List.nil_append, List.reverse_reverse, List.singleton_append, valueOfLE]
    rw [digitChar_toNat (n % 10) (by omega), decDigitsLE_val n (n / 10) (by omega)]
    omega

theorem decRepr_inj {m n : Nat} (h : decRepr m = decRepr n) : m = n := by
  have h2 := congrArg (fun l => valueOfLE l.reverse) h
  simpa only [decRepr_val] using h2

theorem seqKeys_mem {tag x : List Char} :
    ∀ {n i : Nat}, x ∈ seqKeys tag i n → ∃ j, i ≤ j ∧ x = tag ++ decRepr j := by
  intro n
  induction n with
  | zero => intro i h; simp [seqKeys] at h
  | succ n ih =>
    intro i h
    simp only [seqKeys, List.mem_cons] at h
    rcases h with h | h
    · exact ⟨i, Nat.le_refl i, h⟩
    · rcases ih h with ⟨j, hj, hx⟩
      exact ⟨j, by omega, hx⟩

theorem seqKeys_nodup (tag : List Char) : ∀ n i, (seqKeys tag i n).Nodup := by
  intro n
  induction n with
  | zero => intro i; simp [seqKeys]
  | succ n ih =>
    intro i
    simp only [seqKeys, List.nodup_cons]
    refine ⟨fun hmem => ?_, ih (i + 1)⟩
    rcases seqKeys_mem hmem with ⟨j, hj, hx⟩
    have : i = j := decRepr_inj (List.append_cancel_left hx)
    omega

theorem scanAux_keys (fname : List Char) : ∀ bs cur idx,
    (scanAux fname bs cur idx).map (fun r => r.key) =
      seqKeys "bin_".toList idx (scanAux fname bs cur idx).length := by
  intro bs
  induction bs with
  | nil => intro cur idx; rfl
  | cons b rest ih =>
    intro cur idx
    simp only [scanAux]
    split
    · exact ih _ idx
    · split
      · split
        · simp only [List.map_cons, List.length_cons, seqKeys]
          exact congrArg _ (ih [] (idx + 1))
        · exact ih [] idx
      · exact ih [] idx

theorem rvScanF_keys (content : List Nat) (fname : List Char) : ∀ fuel pos i,
    (rvScanF content fname fuel pos i).map (fun r => r.key) =
      seqKeys "str_".toList i (rvScanF content fname fuel pos i).length := by
  intro fuel
  induction fuel with
  | zero => intro pos i; rfl
  | succ fuel ih =>
    intro pos i
    simp only [rvScanF]
    split
    · split
      · split
        · split
          · simp only [List.map_cons, List.length_cons, seqKeys]
            exact congrArg _ (ih _ (i + 1))
          · exact ih _ i
        · exact ih _ i
      · exact ih _ i
    · rfl

theorem patch_locres_id : ∀ (translations : List (List Char × List Char)) (content : List Nat),
    patch_locres content translations = content := by
  intro translations
  induction translations with
  | nil => intro content; rfl
  | cons kv t ih => intro content; exact ih content

theorem patch_rvdata2_id : ∀ (translations : List (List Char × List Char)) (content : List Nat),
    patch_rvdata2 content translations = content := by
  intro translations
  induction translations with
  | nil => intro content; rfl
  | cons kv t ih => intro content; exact ih content

theorem scanAux_eq_runs (fname : List Char) : ∀ bs cur idx,
    scanAux fname bs cur idx = withKeys fname idx (goodRunsFrom bs cur) := by
  intro bs
  induction bs with
  | nil => intro cur idx; rfl
  | cons b rest ih =>
    intro cur idx
    by_cases hp : printableByte b = true
    · simp only [scanAux, if_pos hp, goodRunsFrom, terminatedRuns, if_pos hp]
      exact ih _ idx
    · simp only [scanAux, if_neg hp, goodRunsFrom, terminatedRuns, if_neg hp]
      by_cases h8 : 8 ≤ cur.length
      · rw [if_pos h8, List.filter_cons_of_pos (by simpa using h8), List.map_cons]
        by_cases hg : goodTrim (pyStrip cur) = true
        · rw [if_pos hg, List.filter_cons_of_pos hg]
          simp only [withKeys]
          exact congrArg _ (ih [] (idx + 1))
        · rw [if_neg hg, List.filter_cons_of_neg (by simpa using hg)]
          exact ih [] idx
      · rw [if_neg h8, List.filter_cons_of_neg (by simpa using h8)]
        exact ih [] idx

theorem scanAux_all_printable (fname : List Char) : ∀ ps cur idx,
    (∀ b ∈ ps, printableByte b = true) → scanAux fname ps cur idx = [] := by
  intro ps
  induction ps with
  | nil => intro cur idx _; rfl
  | cons b rest ih =>
    intro cur idx h
    have hb : printableByte b = true := h b (List.mem_cons_self b rest)
    simp only [scanAux, if_pos hb]
    exact ih _ idx (fun x hx => h x (List.mem_cons_of_mem b hx))

theorem scanAux_append_printable (fname : List Char) : ∀ bs ps cur idx,
    (∀ b ∈ ps, printableByte b = true) →
    scanAux fname (bs ++ ps) cur idx = scanAux fname bs cur idx := by
  intro bs
  induction bs with
  | nil =>
    intro ps cur idx h
    simpa using scanAux_all_printable fname ps cur idx h
  | cons b rest ih =>
    intro ps cur idx h
    simp only [List.cons_append, scanAux]
    split
    · exact ih ps _ idx h
    · split
      · split
        · exact congrArg _ (ih ps [] (idx + 1) h)
        · exact ih ps [] idx h
      · exact ih ps [] idx h

theorem getD_lt_256 : ∀ (content : List Nat), (∀ b ∈ content, b < 256) →
    ∀ i, content.getD i 0 < 256 := by
  intro content h i
  induction content generalizing i with
  | nil => cases i <;> simp [List.getD]
  | cons b rest ih =>
    cases i with
    | zero => simpa using h b (List.mem_cons_self b rest)
    | succ i =>
      simp only [List.getD_cons_succ]
      exact ih (fun x hx => h x (List.mem_cons_of_mem b hx)) i

set_option maxRecDepth 10000 in
theorem byteLand128 : ∀ lb, lb < 256 →
    ((lb ≤ 127 → lb &&& 128 = 0) ∧
     (128 ≤ lb → (lb &&& 128 ≠ 0 ∧ lb &&& 127 = lb - 128))) := by decide

theorem rvScanF_filter (content : List Nat) (fname : List Char) : ∀ fuel pos i r,
    r ∈ rvScanF content fname fuel pos i →
    3 ≤ r.original.length ∧ pyIsPrintableStr r.original = true := by
  intro fuel
  induction fuel with
  | zero => intro pos i r h; simp [rvScanF] at h
  | succ fuel ih =>
    intro pos i r h
    simp only [rvScanF] at h
    split at h
    · split at h
      · split at h
        · rename_i s heq
          split at h
          · rcases List.mem_cons.mp h with hr | hr
            · subst hr
              rename_i hcond
              exact ⟨hcond.1, hcond.2⟩
            · exact ih _ _ r hr
          · exact ih _ _ r h
        · exact ih _ _ r h
      · exact ih _ _ r h
    · simp at h

/-! Claim theorems. -/

/-- C1: the locres patch does not reconstruct the table.  On a concrete
buffer whose single record's value `Hello` has declared FString length 5,
patching with a 10-byte translation returns the input bytes unchanged, so
the declared length prefix of the value (offset 41) still reads 5 and not
the new encoded byte length 10 — the source's `patch_locres` is an
unimplemented stub, against the spec's required full table rewrite. -/
theorem patch_locres_stub_no_reconstruction :
    patch_locres locresOneRec [(".k".toList, "Translated".toList)] = locresOneRec ∧
    readInt32 locresOneRec 41 = some (5, 45) ∧
    (utf8Encode "Translated".toList).length = 10 ∧ (5 : Nat) ≠ 10 := by
  exact ⟨patch_locres_id _ _, by decide, by decide, by decide⟩

set_option maxRecDepth 10000 in
/-- C2 counterexample: patching with engine `godot` and an empty translation
map does not return the original bytes — `generate_patch` has no Godot
branch at all and raises the unsupported-engine error. -/
theorem generate_patch_godot_unsupported :
    generate_patch "godot".toList [71, 68, 80, 67] [] =
      Except.error (PatchError.unsupportedEngine "godot".toList) ∧
    generate_patch "godot".toList [71, 68, 80, 67] [] ≠ Except.ok [71, 68, 80, 67] := by
  decide

/-- C2 (amended): for the Length-Prefixed String-Table Codec (engine
`unreal`), patching any buffer with the empty translation map returns the
original bytes byte-for-byte. -/
theorem generate_patch_unreal_empty_identity (content : List Nat) :
    generate_patch "unreal".toList content [] = Except.ok content := by
  unfold generate_patch
  rw [if_neg (by decide), if_pos rfl]
  rfl

set_option maxRecDepth 10000 in
/-- C3 counterexample: the Unity textual fallback returns the key `a` twice
for the two-line input `a: hello` / `a: world`, so one extract call can
return duplicate keys. -/
theorem yaml_fallback_duplicate_keys :
    (parse_unity_yaml_fallback yamlDupInput "f.asset".toList).map (fun r => r.key) =
      ["a".toList, "a".toList] ∧
    ¬ ((parse_unity_yaml_fallback yamlDupInput "f.asset".toList).map (fun r => r.key)).Nodup := by
  decide

/-- C3 (amended): the codecs that key records by a sequential counter — the
heuristic binary scanner (`bin_i`) and the tagged-object-stream scan
(`str_i`) — return pairwise distinct keys on every input. -/
theorem sequential_codec_keys_nodup (content : List Nat) (fname : List Char) :
    ((extract_strings_from_binary content fname).map (fun r => r.key)).Nodup ∧
    ((parse_rvdata2 content fname).map (fun r => r.key)).Nodup := by
  constructor
  · have h1 : ((scanAux fname content [] 0).map (fun r => r.key)).Nodup := by
      rw [scanAux_keys]; exact seqKeys_nodup _ _ _
    unfold extract_strings_from_binary
    rw [List.map_take]
    exact h1.sublist (List.take_sublist _ _)
  · unfold parse_rvdata2
    rw [rvScanF_keys]
    exact seqKeys_nodup _ _ _

set_option maxRecDepth 10000 in
/-- C4: the failing input.  In `locresOverrun` the last value's declared
FString length 100 reads past the 55-byte buffer end, a structural read
failure by the claim's own example; yet the structured walk does not abort
(the Python slice silently truncates), and `parse_locres` returns the
partial structured record `.k ↦ HelloWorld` instead of the heuristic
scanner's output for the whole buffer (which is empty here). -/
theorem parse_locres_overrun_partial_record :
    parse_locres locresOverrun "f".toList =
      [⟨".k".toList, "HelloWorld".toList, "f".toList⟩] ∧
    extract_strings_from_binary locresOverrun "f".toList = [] ∧
    readInt32 locresOverrun 41 = some (100, 45) ∧
    locresOverrun.length = 55 := by
  decide

set_option maxRecDepth 10000 in
/-- C7: on a GDPC archive with one inner file `strings.po` holding the line
`msgid "Hello"`, extract yields exactly one record keyed
`pck_strings.po_0` (the source's rendering of the `archive_path_lineIndex`
schema) with original `Hello`, and its source file is the inner path
`strings.po`, not the archive's own filename `pack.pck`. -/
theorem parse_godot_pck_msgid_scenario :
    parse_godot_pck gdpcHello "pack.pck".toList =
      [⟨"pck_strings.po_0".toList, "Hello".toList, "strings.po".toList⟩] ∧
    "strings.po".toList ≠ "pack.pck".toList := by
  decide

set_option maxRecDepth 10000 in
/-- C9 counterexample: a terminated printable run of 8 spaces satisfies the
claim's conditions as stated (length at least 8, trimmed, not starting with
a comment marker) yet produces no record, because the source additionally
requires the trimmed run to be nonempty. -/
theorem scanner_allspace_run_no_record :
    extract_strings_from_binary spacesRun "f".toList = [] ∧
    terminatedRuns spacesRun [] = [List.replicate 8 (Char.ofNat 32)] ∧
    8 ≤ (List.replicate 8 (Char.ofNat 32)).length ∧
    startsWithL (pyStrip (List.replicate 8 (Char.ofNat 32))) "//".toList = false ∧
    startsWithL (pyStrip (List.replicate 8 (Char.ofNat 32))) "#!".toList = false := by
  decide

/-- C9 (amended): the scanner equals the pipeline over terminated printable
runs — keep runs of untrimmed length at least 8, trim them, keep those that
are nonempty and carry no comment marker, key them `bin_0, bin_1, ...` in
order — truncated to at most 500 records. -/
theorem extract_strings_pipeline (content : List Nat) (fname : List Char) :
    extract_strings_from_binary content fname =
      (withKeys fname 0 (specGoodRuns content)).take 500 ∧
    (extract_strings_from_binary content fname).length ≤ 500 := by
  constructor
  · unfold extract_strings_from_binary specGoodRuns
    rw [scanAux_eq_runs]
  · unfold extract_strings_from_binary
    rw [List.length_take]
    omega

/-- C10: a printable run reaching the end of the input is never emitted —
appending any all-printable suffix to a buffer leaves the scanner's output
unchanged, because the source's loop ends without flushing the open run. -/
theorem scanner_trailing_run_never_emitted (content ps : List Nat) (fname : List Char)
    (h : ∀ b ∈ ps, printableByte b = true) :
    extract_strings_from_binary (content ++ ps) fname =
      extract_strings_from_binary content fname := by
  unfold extract_strings_from_binary
  rw [scanAux_append_printable fname content ps [] 0 h]

/-- C10 witness: the 10-character printable tail `ABCDEFGHIJ` after a NUL
byte yields nothing — the scan of `[0] ++ run` equals the scan of `[0]`. -/
theorem scanner_trailing_run_never_emitted_witness :
    extract_strings_from_binary ([0] ++ strBytes "ABCDEFGHIJ") "f".toList =
      extract_strings_from_binary [0] "f".toList :=
  scanner_trailing_run_never_emitted [0] (strBytes "ABCDEFGHIJ") "f".toList (by decide)

/-- C5: `read_fstring` reads a signed 32-bit little-endian length prefix;
when it is zero the empty string is returned and only the 4 prefix bytes
are consumed; when it is positive, that many following bytes are decoded as
UTF-8 (trailing NULs stripped) and consumed; when it is negative,
`2 · (-length)` following bytes — `-length` UTF-16-LE code units — are
decoded (trailing NULs stripped) and consumed. -/
theorem read_fstring_cases (content : List Nat) (pos : Nat) (len : Int)
    (h : readInt32 content pos = some (len, pos + 4)) :
    (len = 0 → readFstring content pos = some ([], pos + 4)) ∧
    (0 < len → readFstring content pos =
      some (rstrip0 (utf8DecodeReplace (pySlice content (pos + 4) (pos + 4 + len.toNat))),
        pos + 4 + len.toNat)) ∧
    (len < 0 → readFstring content pos =
      some (rstrip0 (utf16leDecodeReplace
          (pySlice content (pos + 4) (pos + 4 + 2 * (-len).toNat))),
        pos + 4 + 2 * (-len).toNat)) := by
  refine ⟨fun hl => ?_, fun hl => ?_, fun hl => ?_⟩ <;>
    simp only [readFstring, h]
  · rw [if_pos hl]
  · rw [if_neg (by omega), if_neg (by omega)]
  · rw [if_neg (by omega), if_pos hl]

/-- C5 witness: prefix 1 followed by the byte `A` decodes to the
one-character string `A`, consuming 5 bytes. -/
theorem read_fstring_cases_witness :
    readFstring [1, 0, 0, 0, 65] 0 = some ([Char.ofNat 65], 5) := by
  have h := (read_fstring_cases [1, 0, 0, 0, 65] 0 1 (by decide)).2.1 (by decide)
  rw [h]
  decide

/-- C6 (amended): the rvdata2 scan collects only fully printable strings of
at least 3 characters, keys them `str_0, str_1, ...` in scan order; the
length header after a `0x22` tag encodes lengths 0–122 directly in one
byte, while a high-bit-set byte takes its low 7 bits as the count of
following little-endian length bytes; a strict-decode failure skips exactly
one byte past the header and resumes the scan; and the declared length is
never checked against the remaining buffer — whenever the (possibly
truncated) body slice decodes, the scan collects it if it passes the filter
and resumes at the declared end `body + length`, even past the buffer. -/
theorem parse_rvdata2_tagged_scan (content : List Nat) (fname : List Char)
    (hbytes : ∀ b ∈ content, b < 256) :
    (∀ r ∈ parse_rvdata2 content fname,
        3 ≤ r.original.length ∧ pyIsPrintableStr r.original = true) ∧
    ((parse_rvdata2 content fname).map (fun r => r.key) =
        seqKeys "str_".toList 0 (parse_rvdata2 content fname).length) ∧
    (∀ pos, content.getD pos 0 = 34 →
        (content.getD (pos + 1) 0 ≤ 122 →
          rvHeader content pos = (content.getD (pos + 1) 0, pos + 2)) ∧
        (128 ≤ content.getD (pos + 1) 0 →
          rvHeader content pos =
            (fromBytesLE (pySlice content (pos + 2)
                (pos + 2 + (content.getD (pos + 1) 0 - 128))),
              pos + 2 + (content.getD (pos + 1) 0 - 128)))) ∧
    (∀ fuel pos i, pos < content.length - 4 → content.getD pos 0 = 34 →
        utf8DecodeStrict (pySlice content (rvHeader content pos).2
          ((rvHeader content pos).2 + (rvHeader content pos).1)) = none →
        rvScanF content fname (fuel + 1) pos i =
          rvScanF content fname fuel ((rvHeader content pos).2 + 1) i) ∧
    (∀ fuel pos i s, pos < content.length - 4 → content.getD pos 0 = 34 →
        utf8DecodeStrict (pySlice content (rvHeader content pos).2
          ((rvHeader content pos).2 + (rvHeader content pos).1)) = some s →
        rvScanF content fname (fuel + 1) pos i =
          if 2 < s.length ∧ pyIsPrintableStr s = true then
            ⟨strKey i, s, fname⟩ :: rvScanF content fname fuel
              ((rvHeader content pos).2 + (rvHeader content pos).1) (i + 1)
          else rvScanF content fname fuel
            ((rvHeader content pos).2 + (rvHeader content pos).1) i) := by
  refine ⟨?_, ?_, fun pos _ => ?_, fun fuel pos i hlt htag hdec => ?_,
    fun fuel pos i s hlt htag hdec => ?_⟩
  · unfold parse_rvdata2
    exact fun r h => rvScanF_filter content fname _ _ _ r h
  · unfold parse_rvdata2
    exact rvScanF_keys content fname _ _ _
  · have hlb := getD_lt_256 content hbytes (pos + 1)
    have hfacts := byteLand128 _ hlb
    constructor
    · intro h122
      have hz : content.getD (pos + 1) 0 &&& 128 = 0 := hfacts.1 (by omega)
      unfold rvHeader
      rw [if_neg (not_not_intro hz)]
    · intro h128
      rcases hfacts.2 h128 with ⟨hnz, h127⟩
      unfold rvHeader
      rw [if_pos hnz, h127]
  · simp only [rvScanF, if_pos hlt, if_pos htag, hdec]
  · simp only [rvScanF, if_pos hlt, if_pos htag, hdec]

set_option maxRecDepth 10000 in
/-- C6 counterexample: in `[4, 8, 34, 10] ++ "Hi!"` the tag at position 2
declares length 10 while only 3 bytes remain — a length violation by the
claim — yet the scan does not skip one byte and resume: the silently
truncated string `Hi!` is collected as `str_0` and the position jumps to
the declared end 14, past the 7-byte buffer. -/
theorem rvdata2_length_overrun_collected :
    parse_rvdata2 rvdataOverrun "f".toList =
      [⟨"str_0".toList, "Hi!".toList, "f".toList⟩] ∧
    rvHeader rvdataOverrun 2 = (10, 4) ∧
    rvdataOverrun.length = 7 ∧
    rvdataOverrun.length < (rvHeader rvdataOverrun 2).2 + (rvHeader rvdataOverrun 2).1 ∧
    pySlice rvdataOverrun 4 14 = strBytes "Hi!" := by
  decide

/-- C6 witness: in the concrete buffer `rvdataHello` the tag at position 2
carries the direct length byte 5 with string body at position 4. -/
theorem parse_rvdata2_tagged_scan_witness : rvHeader rvdataHello 2 = (5, 4) := by
  have h := ((parse_rvdata2_tagged_scan rvdataHello "f".toList
      (by decide)).2.2.1 2 (by decide)).1 (by decide)
  rw [h]
  decide

/-- C8: when the engine hint names no codec and the lowered filename
carries none of the recognised extensions, the dispatch returns the
unsupported-format error — no codec runs and the heuristic scanner is not
consulted at dispatch time. -/
theorem parse_file_unsupported_format (engine filename : List Char) (content : List Nat)
    (h1 : engine ≠ "unity".toList) (h2 : engine ≠ "unreal".toList)
    (h3 : engine ≠ "rpgmaker_xp".toList) (h4 : engine ≠ "godot".toList)
    (h5 : ∀ suf ∈ [".assets".toList, ".asset".toList, ".bundle".toList,
        ".locres".toList, ".rvdata2".toList], endsWithL (pyLower filename) suf = false) :
    parse_file engine filename content =
      Except.error (ParseError.unsupportedFormat (pyLower filename)) := by
  have ha := h5 ".assets".toList (by simp)
  have hb := h5 ".asset".toList (by simp)
  have hc := h5 ".bundle".toList (by simp)
  have hd := h5 ".locres".toList (by simp)
  have he := h5 ".rvdata2".toList (by simp)
  have e1 : endsWithAny (pyLower filename)
      [".assets".toList, ".asset".toList, ".bundle".toList] = false := by
    simp only [endsWithAny, List.any_cons, List.any_nil, Bool.or_eq_false_iff]
    exact ⟨ha, hb, hc, trivial⟩
  have c1 : ¬(engine = "unity".toList ∨ endsWithAny (pyLower filename)
      [".assets".toList, ".asset".toList, ".bundle".toList] = true) := by
    rw [e1]
    exact not_or.mpr ⟨h1, by simp⟩
  have c2 : ¬(engine = "unreal".toList ∨
      endsWithL (pyLower filename) ".locres".toList = true) := by
    rw [hd]
    exact not_or.mpr ⟨h2, by simp⟩
  have c3 : ¬(engine = "rpgmaker_xp".toList ∨
      endsWithL (pyLower filename) ".rvdata2".toList = true) := by
    rw [he]
    exact not_or.mpr ⟨h3, by simp⟩
  have c4 : ¬(engine = "godot".toList ∧
      endsWithL (pyLower filename) ".pck".toList = true) := fun hx => h4 hx.1
  unfold parse_file
  rw [if_neg c1, if_neg c2, if_neg c3, if_neg c4]

/-- C8 witness: engine hint `gamemaker` with filename `data.win` matches no
codec and fails with the unsupported-format error. -/
theorem parse_file_unsupported_format_witness :
    parse_file "gamemaker".toList "data.win".toList [] =
      Except.error (ParseError.unsupportedFormat (pyLower "data.win".toList)) :=
  parse_file_unsupported_format "gamemaker".toList "data.win".toList []
    (by decide) (by decide) (by decide) (by decide) (by decide)

end LudoLocale
